import Mathlib

/-!
Shallow embedding of the Automotive_Scraper repository (src/main.js,
src/worker.js, src/schema.sql) and proofs about its specified behaviour.

The JavaScript source is modelled as follows:
* pure computations (substring relevance test, selector fallback loop,
  chunk slicing) become Lean functions over `List Char` / `String`;
* the network is abstracted: a fetched page is an `Except String Page`
  where `Page.textOf sel` models the cheerio call
  `$(sel).first().text()` on the fetched markup;
* side effects of one thread scrape (debug artifact dump, database
  insert) are returned as data in a `ScrapeEffects` record;
* the Postgres table with its `UNIQUE (thread_url)` column and the
  `ON CONFLICT (thread_url) DO NOTHING` insert is modelled as a list of
  rows with an insert-if-absent function;
* the manager's dynamic worker pool (main.js) becomes a transition
  system: `launchWorkerIfNeeded` and the per-worker exit handler are
  state transformers, and runs are traces of exit events after the
  initial kick-off loop.
-/

namespace Scraper

/-- Crawl target, as read from targets.json and used throughout worker.js. -/
structure Target where
  sourceName : String
  startUrl : String
  threadLinkSelector : String
  nextPageSelector : String
  postContentSelectors : List String
  keywords : List String

/-- Extracted thread link: worker.js line 73, `{ title, url }`. -/
structure ThreadLink where
  title : String
  url : String
deriving DecidableEq, Repr

/-- Abstraction of a fetched, rendered page: `textOf sel` is the text of
the first node matched by a selector (cheerio `$(sel).first().text()`),
`html` is the raw markup returned by `page.content()`. -/
structure Page where
  textOf : String → String
  html : String

/-- Value returned by `scrapeThreadIfRelevant` (worker.js lines 145, 157, 159). -/
structure ScrapeResult where
  isRelevant : Bool
  title : String
deriving DecidableEq, Repr

/-- Row of the `scraped_threads` table (schema.sql); `thread_url` carries a
UNIQUE constraint. The `id` and `discovered_at` columns are supplied by the
database and irrelevant to the claims, so they are omitted. -/
structure Row where
  source_forum : String
  thread_title : String
  thread_url : String
  post_text : String
deriving DecidableEq, Repr

/-- Side effects of one call to `scrapeThreadIfRelevant`, returned as data:
whether the no-content debug artifacts were written (worker.js lines 142-144)
and which row, if any, was sent to the database (lines 151-155). -/
structure ScrapeEffects where
  debugDumped : Bool
  insert : Option Row
deriving DecidableEq, Repr

/-- Model of JavaScript `String.prototype.toLowerCase` on the ASCII range
(every string in the repository's keyword/text claims is ASCII):
`Char.toLower` lowers exactly the characters A-Z. -/
def jsToLower (s : List Char) : List Char := s.map Char.toLower

/-- Model of JavaScript `String.prototype.trim`: strip leading and trailing
whitespace (computed over the character list so that the kernel can evaluate
it). -/
def jsTrim (s : String) : String :=
  ⟨((s.toList.dropWhile Char.isWhitespace).reverse.dropWhile Char.isWhitespace).reverse⟩

/-- Helper for `jsIncludes`: does the haystack begin with the needle? -/
def beginsWith : List Char → List Char → Bool
  | [], _ => true
  | _ :: _, [] => false
  | a :: as, b :: bs => a == b && beginsWith as bs

/-- Model of JavaScript `hay.includes(needle)`: some suffix of the haystack
begins with the needle (the empty needle is always found). -/
def jsIncludes (hay needle : List Char) : Bool :=
  match hay with
  | [] => needle.isEmpty
  | _ :: t => beginsWith needle hay || jsIncludes t needle

/-- Selector fallback loop of worker.js lines 133-138: try each selector in
order, keep the first non-empty text, stop there; yield the empty string
when every selector fails. -/
def extractPostText (selectors : List String) (page : Page) : String :=
  match selectors with
  | [] => ""
  | sel :: rest =>
    let postText := page.textOf sel
    if postText ≠ "" then postText else extractPostText rest page

/-- Embedding of `scrapeThreadIfRelevant` (worker.js lines 123-164).
The argument `fetched` is the outcome of opening the tab and navigating to
`thread.url`: any fetch or extraction failure is the `.error` case, which the
function's catch block converts into the `"[ERROR] "` result (line 159).
On success it runs the selector fallback loop; with no text it dumps the
debug artifacts and reports irrelevant (lines 141-146); otherwise it applies
the case-insensitive keyword test (line 148) and, when relevant, emits the
`ON CONFLICT DO NOTHING` insert (lines 150-156). -/
def scrapeThreadIfRelevant (thread : ThreadLink) (target : Target)
    (fetched : Except String Page) : ScrapeResult × ScrapeEffects :=
  match fetched with
  | .error _ =>
      ({ isRelevant := false, title := "[ERROR] " ++ thread.title },
       { debugDumped := false, insert := none })
  | .ok page =>
      let postText := extractPostText target.postContentSelectors page
      if postText = "" then
        ({ isRelevant := false, title := thread.title },
         { debugDumped := true, insert := none })
      else
        let isRelevant := target.keywords.any fun kw =>
          jsIncludes (jsToLower postText.toList) (jsToLower kw.toList)
        ({ isRelevant := isRelevant, title := thread.title },
         { debugDumped := false,
           insert := if isRelevant then
             some { source_forum := target.sourceName, thread_title := thread.title,
                    thread_url := thread.url, post_text := jsTrim postText }
           else none })

/-- Concurrency cap of the per-page fan-out, worker.js line 15. -/
def CONCURRENCY_LIMIT : Nat := 3

/-- Recursion scaffold of the chunk slicer, structurally recursive on a fuel
argument so that the kernel can evaluate it; `chunksOf` instantiates the fuel
with the list length, which suffices for every positive cap. -/
def chunksOfAux (c : Nat) : Nat → List α → List (List α)
  | _, [] => []
  | 0, _ :: _ => []
  | fuel + 1, x :: xs => ((x :: xs).take c) :: chunksOfAux c fuel ((x :: xs).drop c)

/-- Chunk slicing of the fan-out loop, worker.js lines 85-87: the loop
variable advances by `c` and each iteration takes `threadLinks.slice(i, i+c)`
(the code's cap is the constant 3). -/
def chunksOf (c : Nat) (l : List α) : List (List α) :=
  chunksOfAux c l.length l

/-- Processing of one chunk, worker.js lines 89-90: every link of the chunk
is mapped to a scrape promise and `Promise.allSettled` is awaited; since
`scrapeThreadIfRelevant` catches internally, every promise fulfills and each
link yields exactly one result. `fetchOf` gives each thread's fetch outcome. -/
def processChunk (target : Target) (fetchOf : ThreadLink → Except String Page)
    (chunk : List ThreadLink) : List ScrapeResult :=
  chunk.map fun thread => (scrapeThreadIfRelevant thread target (fetchOf thread)).1

/-- Per-chunk relevant counting, worker.js lines 93-98: each fulfilled result
with `isRelevant` true increments the running total by one. -/
def countRelevant (results : List ScrapeResult) : Nat :=
  results.countP fun r => r.isRelevant

/-! Store model. schema.sql declares `thread_url VARCHAR(2048) UNIQUE` and the
insert of worker.js lines 151-155 ends in `ON CONFLICT (thread_url) DO NOTHING`.
Postgres serialises conflicting inserts on the unique index, so any concurrent
set of inserts behaves like some sequential order of them; the model therefore
quantifies over all sequential orders. -/

/-- Semantics of the worker's insert statement against the `scraped_threads`
table: when a row with the same `thread_url` is already present the statement
does nothing and still reports success to the caller; otherwise the row is
appended. -/
def insertIgnoreDuplicate (table : List Row) (r : Row) : List Row :=
  if table.any fun q => q.thread_url == r.thread_url then table else table ++ [r]

/-- Number of stored rows carrying a given `thread_url`. -/
def urlCount (table : List Row) (u : String) : Nat :=
  table.countP fun r => r.thread_url == u

/-! Dispatcher model (main.js lines 52-127). A worker slot's status is one of
the dashboard statuses; the intermediate display statuses that workers push
over the message channel ('starting', 'scraping', 'processing') are collapsed
into `busy`, because worker.js only ever sends 'scraping', 'processing' and
'error' — never 'finished' — so message events cannot affect the completion
check at main.js line 81, which only `launchWorkerIfNeeded` can satisfy. -/

/-- Status of one worker slot of the pool. -/
inductive WStatus
  | idle
  | busy
  | finished
  | error
deriving DecidableEq, Repr

/-- Shared state of the manager: the remaining queue length, the slot statuses,
the `completedTargets` counter, and bookkeeping for the proofs: how many worker
processes exited cleanly (`exitedOk`), how many exited with a non-zero code
(`exitedErr`), and how many times `resolve()` was invoked (`resolveCount`). -/
structure DispatchState (n : Nat) where
  queue : Nat
  slots : Fin n → WStatus
  completedTargets : Nat
  exitedOk : Nat
  exitedErr : Nat
  resolveCount : Nat

/-- Embedding of `launchWorkerIfNeeded` (main.js lines 76-121): with an empty
queue the requesting slot is marked `finished` and, if every slot is now
`finished`, `resolve()` fires; otherwise one target is dequeued and the slot
starts working on it. -/
def launchWorkerIfNeeded (s : DispatchState n) (w : Fin n) : DispatchState n :=
  if s.queue = 0 then
    let slots := Function.update s.slots w WStatus.finished
    { s with slots := slots,
             resolveCount :=
               if ∀ i, slots i = WStatus.finished then s.resolveCount + 1
               else s.resolveCount }
  else
    { s with queue := s.queue - 1, slots := Function.update s.slots w WStatus.busy }

/-- Embedding of the worker 'exit' handler (main.js lines 104-113):
`completedTargets` is incremented on every exit; a non-zero code marks the
slot `error` and abandons it, a zero code re-enters `launchWorkerIfNeeded`. -/
def workerExit (s : DispatchState n) (w : Fin n) (ok : Bool) : DispatchState n :=
  let s1 := { s with completedTargets := s.completedTargets + 1,
                     exitedOk := s.exitedOk + (if ok then 1 else 0),
                     exitedErr := s.exitedErr + (if ok then 0 else 1) }
  if ok then launchWorkerIfNeeded s1 w
  else { s1 with slots := Function.update s1.slots w WStatus.error }

/-- State before any worker is launched: full queue, all slots idle
(main.js lines 57-65). -/
def initState (n T : Nat) : DispatchState n :=
  { queue := T, slots := fun _ => WStatus.idle, completedTargets := 0,
    exitedOk := 0, exitedErr := 0, resolveCount := 0 }

/-- Kick-off loop of main.js lines 124-126: `launchWorkerIfNeeded` runs
synchronously for every slot in order, before any exit event can fire. -/
def kickoff (n T : Nat) : DispatchState n :=
  (List.finRange n).foldl launchWorkerIfNeeded (initState n T)

/-- States the manager can be in during a run: the kicked-off state, followed
by any sequence of exit events of busy slots (each spawned worker process
exits exactly once, with code 0 or non-zero). -/
inductive Reachable (n T : Nat) : DispatchState n → Prop
  | start : Reachable n T (kickoff n T)
  | step (s : DispatchState n) (w : Fin n) (ok : Bool) :
      Reachable n T s → s.slots w = WStatus.busy → Reachable n T (workerExit s w ok)

/-- Pool size, main.js line 10. -/
def NUM_WORKERS : Nat := 4

/-- Run invariant of the manager: `completedTargets` counts exactly the
worker processes that exited (cleanly or with an error), `resolve()` has
fired at most once, and if it fired then the queue was drained and every
slot reached `finished`. -/
def DInv {n : Nat} (s : DispatchState n) : Prop :=
  s.completedTargets = s.exitedOk + s.exitedErr ∧
  s.resolveCount ≤ 1 ∧
  (s.resolveCount = 1 → s.queue = 0 ∧ ∀ i, s.slots i = WStatus.finished)

/-! Worker process exit-path model (worker.js lines 34-52). The `run`
function wraps `processTarget` in try/catch/finally; the catch block writes
the debug artifact and then calls `process.exit(1)`. In Node, `process.exit`
terminates the process at once: the pending `finally` block of the async
function never runs, so neither `browser.close()` nor `pgPool.end()`
executes on that path. On normal completion of the try block the finally
block runs both. -/

/-- Observable outcome of one worker process: its exit code and whether the
finally-block cleanup (closing the browser, ending the pg pool) ran. -/
structure WorkerRunOutcome where
  exitCode : Nat
  browserClosed : Bool
  poolEnded : Bool
deriving DecidableEq, Repr

/-- Embedding of `run` (worker.js lines 34-52), parameterised by whether
`processTarget` rejects. The failing branch is the catch block: it reports
the error, writes the debug file, and calls `process.exit(1)`, which skips
the finally block, leaving the browser open and the pool alive. -/
def runWorkerProcess (processTargetFails : Bool) : WorkerRunOutcome :=
  if processTargetFails then
    { exitCode := 1, browserClosed := false, poolEnded := false }
  else
    { exitCode := 0, browserClosed := true, poolEnded := true }

/-! Listing-page link extraction (worker.js lines 68-75) and the page-level
error handler (lines 114-117). -/

/-- Anchor element matched by `threadLinkSelector`: its rendered text and its
href attribute (`none` when the attribute is absent). -/
structure Anchor where
  text : String
  href : Option String
deriving DecidableEq, Repr

/-- Embedding of the `.each` loop of worker.js lines 69-75. Entries whose
trimmed title is empty or whose href is missing or empty are skipped
(JavaScript truthiness of `title && url`); for the rest,
`new URL(url, target.startUrl)` is modelled by `resolveUrl`, and a resolution
failure is the exception the constructor throws, which cheerio's `.each`
does not catch: it aborts the whole extraction. -/
def collectThreadLinks (resolveUrl : String → Except String String) :
    List Anchor → Except String (List ThreadLink)
  | [] => .ok []
  | a :: rest =>
    let title := jsTrim a.text
    match a.href with
    | none => collectThreadLinks resolveUrl rest
    | some u =>
      if title ≠ "" ∧ u ≠ "" then
        match resolveUrl u with
        | .error e => .error e
        | .ok absUrl =>
          match collectThreadLinks resolveUrl rest with
          | .error e => .error e
          | .ok links => .ok ({ title := title, url := absUrl } :: links)
      else collectThreadLinks resolveUrl rest

/-- Outcome of one iteration of the pagination loop for a successfully
fetched page: which thread links were handed to the fan-out, and the value
of `currentPageUrl` afterwards (`none` terminates pagination). -/
structure PageOutcome where
  processedLinks : List ThreadLink
  nextPageUrl : Option String
deriving DecidableEq, Repr

/-- Embedding of one iteration of the `while` body of `processTarget`
(worker.js lines 62-117) after a successful page fetch. A throw during link
extraction lands in the catch at lines 114-117, which sets
`currentPageUrl = null`: no link of the page reaches the fan-out and the
target's pagination ends. Otherwise the extracted links are processed and
the next-page href (line 107), when present, non-empty and not suppressed by
shutdown, is resolved; a throw while resolving it also lands in the page
catch and ends pagination. -/
def processListingPage (resolveUrl : String → Except String String)
    (anchors : List Anchor) (nextPageHref : Option String)
    (isShuttingDown : Bool) : PageOutcome :=
  match collectThreadLinks resolveUrl anchors with
  | .error _ => { processedLinks := [], nextPageUrl := none }
  | .ok threadLinks =>
    { processedLinks := threadLinks,
      nextPageUrl :=
        match nextPageHref with
        | none => none
        | some href =>
          if href ≠ "" ∧ ¬isShuttingDown then
            match resolveUrl href with
            | .ok u => some u
            | .error _ => none
          else none }

/-! Cooperative-shutdown trace model of `processTarget` (worker.js lines
54-120). Time is the number of completed awaited operations: fetching one
listing page and settling one chunk each advance the clock by one. The
shutdown flag, set asynchronously by SIGINT (worker.js line 35), is a
function of time; the code reads it at the `while` head (line 61), at the
chunk-loop head (line 86) and at the next-page decision (line 108). Page
fetches are assumed to succeed: the claims modelled here concern shutdown,
not fetch failure. -/

/-- Events of a pagination trace, each tagged with the clock value at which
the code checked the shutdown flag (for `fetchPage` and `chunkStart`) or at
which the chunk's promises all settled (for `chunkSettle`). -/
inductive Ev
  | fetchPage (t : Nat)
  | chunkStart (t : Nat) (chunk : List ThreadLink)
  | chunkSettle (t : Nat) (chunk : List ThreadLink)
deriving DecidableEq, Repr

/-- Clock tag of an event. -/
def evTime : Ev → Nat
  | .fetchPage t => t
  | .chunkStart t _ => t
  | .chunkSettle t _ => t

/-- Does the event dispatch new work (a page fetch or a chunk start), as
opposed to completing work already in flight? -/
def isNewWork : Ev → Bool
  | .fetchPage _ => true
  | .chunkStart _ _ => true
  | .chunkSettle _ _ => false

/-- Chunk loop of worker.js lines 85-103: at each head the flag is read
(line 86) and, when set, the loop breaks with no new dispatch; otherwise the
chunk's scrapes are dispatched and `Promise.allSettled` is awaited — the
settle event always follows its start event, whatever the flag does in
between. -/
def chunkLoop (flag : Nat → Bool) :
    List (List ThreadLink) → Nat → List Ev × Nat
  | [], t => ([], t)
  | c :: rest, t =>
    if flag t then ([], t)
    else
      let r := chunkLoop flag rest (t + 1)
      (Ev.chunkStart t c :: Ev.chunkSettle (t + 1) c :: r.1, r.2)

/-- One listing page of the chain `processTarget` would walk: its extracted
thread links and whether a next-page href is present. -/
structure ListingPage where
  links : List ThreadLink
  nextHref : Option String
deriving DecidableEq, Repr

/-- Pagination loop of worker.js lines 61-118: the flag is read at the
`while` head before fetching; after the page's chunk loop finishes, the
next-page decision (line 108) re-reads the flag and continues only when a
next href exists and shutdown has not been observed. -/
def pageLoop (flag : Nat → Bool) :
    List ListingPage → Nat → List Ev × Nat
  | [], t => ([], t)
  | p :: rest, t =>
    if flag t then ([], t)
    else
      let c := chunkLoop flag (chunksOf CONCURRENCY_LIMIT p.links) (t + 1)
      if p.nextHref ≠ none ∧ ¬flag c.2 then
        let r := pageLoop flag rest c.2
        (Ev.fetchPage t :: (c.1 ++ r.1), r.2)
      else
        (Ev.fetchPage t :: c.1, c.2)

/-- Does a trace pair every `chunkStart` immediately with the `chunkSettle`
of the same chunk? This is the no-task-abandoned shape: a started chunk is
always driven to settlement before anything else happens. -/
def chunkPaired : List Ev → Bool
  | [] => true
  | Ev.fetchPage _ :: rest => chunkPaired rest
  | Ev.chunkStart _ c :: Ev.chunkSettle _ c2 :: rest => c == c2 && chunkPaired rest
  | _ => false

/-! Concrete fixtures used by witness theorems. -/

/-- Sample target whose keyword list is the one of the spec's relevance
scenario. -/
def demoTarget : Target :=
  { sourceName := "HondaTech", startUrl := "https://forum.example/f/",
    threadLinkSelector := ".structItem-title > a", nextPageSelector := "a.pageNav-jump",
    postContentSelectors := ["div.message-content"],
    keywords := ["turbo", "timing belt"] }

/-- Same target with the non-matching keyword list of the spec scenario. -/
def demoTargetDiesel : Target :=
  { demoTarget with keywords := ["diesel"] }

/-- Sample thread link. -/
def demoThread : ThreadLink :=
  { title := "B20 swap questions", url := "https://forum.example/t/1" }

/-- Fetched page whose only selector hit yields the spec scenario's
mixed-case post text. -/
def demoPage : Page :=
  { textOf := fun _ => "the Timing Belt failed at 90k", html := "<html></html>" }

/-- Page where only the selector named a yields text. -/
def selPage : Page :=
  { textOf := fun s => if s = "a" then "hello world" else "", html := "<html></html>" }

/-- Target whose single content selector misses on `selPage`. -/
def missTarget : Target :=
  { demoTarget with postContentSelectors := ["z"] }

/-- Fetch map for the chunk-isolation witness: the thread at url bad fails,
every other thread fetch succeeds with `demoPage`. -/
def demoFetch (th : ThreadLink) : Except String Page :=
  if th.url = "bad" then .error "net::ERR_TIMED_OUT" else .ok demoPage

/-- Three-thread chunk whose middle fetch fails. -/
def demoChunk : List ThreadLink :=
  [{ title := "ok1", url := "u1" }, { title := "boom", url := "bad" },
   { title := "ok2", url := "u2" }]

/-- Seven thread links, so that the cap of 3 yields chunks of 3, 3 and 1. -/
def demoLinks : List ThreadLink :=
  (List.range 7).map fun i => { title := "t", url := toString i }

/-- Stored row used by the idempotent-store witness. -/
def demoRow : Row :=
  { source_forum := "HondaTech", thread_title := "B20 swap questions",
    thread_url := "https://forum.example/t/1", post_text := "the Timing Belt failed at 90k" }

/-- Shutdown flag of the witness run: SIGINT lands after two completed
awaits, so the flag reads false at clock 0 and 1 and true from clock 2 on. -/
def demoFlag (t : Nat) : Bool := decide (2 ≤ t)

/-- Two listing pages of four links each for the shutdown witness: the cap
of 3 splits each page into a chunk of 3 and a chunk of 1. -/
def demoPages : List ListingPage :=
  [{ links := (List.range 4).map fun i => { title := "t", url := toString i },
     nextHref := some "/page-2" },
   { links := (List.range 4).map fun i => { title := "t", url := toString (i + 4) },
     nextHref := none }]

/-- URL resolver of the link-extraction witness: models
`new URL(url, base).href`, which throws on the scheme-only href. -/
def demoResolve (u : String) : Except String String :=
  if u = "http://" then .error "Invalid URL" else .ok ("https://forum.example" ++ u)

/-- Listing-page anchors of the link-extraction witness: a well-formed
anchor followed by an anchor whose href cannot be resolved. -/
def demoAnchors : List Anchor :=
  [{ text := "good thread ", href := some "/t/1" },
   { text := "broken thread", href := some "http://" }]

/-! Theorems. First, correctness of the substring primitives with respect to
the mathematical substring relation, so that the relevance theorem is stated
against the spec's notion (one keyword is a substring of the text) rather
than against the code's own search routine. -/

/-- The haystack begins with the needle exactly when it splits as needle ++ rest. -/
theorem beginsWith_iff (needle hay : List Char) :
    beginsWith needle hay = true ↔ ∃ rest, hay = needle ++ rest := by
  induction needle generalizing hay with
  | nil => simp [beginsWith]
  | cons a as ih =>
    cases hay with
    | nil => simp [beginsWith]
    | cons b bs =>
      simp only [beginsWith, Bool.and_eq_true, beq_iff_eq, ih, List.cons_append,
        List.cons.injEq]
      constructor
      · rintro ⟨hab, rest, hrest⟩
        exact ⟨rest, hab.symm, hrest⟩
      · rintro ⟨rest, hab, hrest⟩
        exact ⟨hab.symm, rest, hrest⟩

/-- Model of `hay.includes(needle)` agrees with the substring relation:
the needle occurs exactly when the haystack splits around it. -/
theorem jsIncludes_iff (hay needle : List Char) :
    jsIncludes hay needle = true ↔ ∃ pre post, hay = pre ++ needle ++ post := by
  induction hay with
  | nil =>
    simp only [jsIncludes, List.isEmpty_iff]
    constructor
    · rintro rfl
      exact ⟨[], [], rfl⟩
    · rintro ⟨pre, post, h⟩
      rcases List.append_eq_nil.mp h.symm with ⟨h1, h2⟩
      rcases List.append_eq_nil.mp h1 with ⟨_, h3⟩
      exact h3
  | cons c t ih =>
    simp only [jsIncludes, Bool.or_eq_true, beginsWith_iff, ih]
    constructor
    · rintro (⟨rest, hrest⟩ | ⟨pre, post, h⟩)
      · exact ⟨[], rest, by simp [hrest]⟩
      · exact ⟨c :: pre, post, by simp [h]⟩
    · rintro ⟨pre, post, h⟩
      cases pre with
      | nil =>
        exact Or.inl ⟨post, by simpa using h⟩
      | cons d ds =>
        rcases List.cons_eq_cons.mp h with ⟨rfl, hrest⟩
        exact Or.inr ⟨ds, post, hrest⟩

/-- C5: for a fetched thread whose extracted post text is non-empty, the
scraper reports the thread relevant exactly when some keyword of the target,
lower-cased, is a substring of the lower-cased extracted text. -/
theorem scrape_relevance_iff (thread : ThreadLink) (target : Target) (page : Page)
    (hne : extractPostText target.postContentSelectors page ≠ "") :
    (scrapeThreadIfRelevant thread target (.ok page)).1.isRelevant = true ↔
      ∃ kw ∈ target.keywords, ∃ pre post,
        jsToLower (extractPostText target.postContentSelectors page).toList =
          pre ++ jsToLower kw.toList ++ post := by
  simp only [scrapeThreadIfRelevant, hne, if_false, ite_false, if_neg hne]
  simp [List.any_eq_true, jsIncludes_iff]

/-- Witness for the relevance theorem at the spec's own scenario: the
mixed-case text about a timing belt is relevant for keywords turbo and
timing belt and irrelevant for the keyword diesel. -/
theorem scrape_relevance_iff_witness :
    extractPostText demoTarget.postContentSelectors demoPage ≠ "" ∧
    ((scrapeThreadIfRelevant demoThread demoTarget (.ok demoPage)).1.isRelevant = true ↔
      ∃ kw ∈ demoTarget.keywords, ∃ pre post,
        jsToLower (extractPostText demoTarget.postContentSelectors demoPage).toList =
          pre ++ jsToLower kw.toList ++ post) ∧
    (scrapeThreadIfRelevant demoThread demoTarget (.ok demoPage)).1.isRelevant = true ∧
    (scrapeThreadIfRelevant demoThread demoTargetDiesel (.ok demoPage)).1.isRelevant = false :=
  ⟨by decide, scrape_relevance_iff demoThread demoTarget demoPage (by decide),
   by decide, by decide⟩

/-- C6: a failing thread scrape is converted locally into the
`"[ERROR] "`-titled irrelevant result with no side effects — the function is
total, nothing propagates to the chunk loop — and chunk processing is
pointwise: every link of the chunk yields exactly one settled result that
depends only on that link's own fetch outcome, so one failure neither drops
nor changes the other results, and the relevant count still counts every
link of the chunk by its own result. -/
theorem scrape_failure_isolated (target : Target)
    (fetchOf : ThreadLink → Except String Page) (chunk : List ThreadLink)
    (thread : ThreadLink) (e : String) :
    scrapeThreadIfRelevant thread target (.error e) =
      ({ isRelevant := false, title := "[ERROR] " ++ thread.title },
       { debugDumped := false, insert := none }) ∧
    (processChunk target fetchOf chunk).length = chunk.length ∧
    (∀ (i : Nat) (th : ThreadLink), chunk[i]? = some th →
      (processChunk target fetchOf chunk)[i]? =
        some (scrapeThreadIfRelevant th target (fetchOf th)).1) ∧
    countRelevant (processChunk target fetchOf chunk) =
      chunk.countP (fun th => (scrapeThreadIfRelevant th target (fetchOf th)).1.isRelevant) := by
  refine ⟨rfl, by simp [processChunk], ?_, ?_⟩
  · intro i th h
    simp [processChunk, List.getElem?_map, h]
  · simp only [processChunk, countRelevant, List.countP_map]
    rfl

/-- Witness for failure isolation on a chunk of three whose middle fetch
fails: the failing thread yields the error-titled result, the chunk still
yields three results, the result at index 1 is the failing thread's own, and
the two healthy threads are counted relevant. -/
theorem scrape_failure_isolated_witness :
    scrapeThreadIfRelevant { title := "boom", url := "bad" } demoTarget
        (.error "net::ERR_TIMED_OUT") =
      ({ isRelevant := false, title := "[ERROR] boom" },
       { debugDumped := false, insert := none }) ∧
    (processChunk demoTarget demoFetch demoChunk).length = 3 ∧
    (processChunk demoTarget demoFetch demoChunk)[1]? =
      some (scrapeThreadIfRelevant { title := "boom", url := "bad" } demoTarget
        (demoFetch { title := "boom", url := "bad" })).1 ∧
    countRelevant (processChunk demoTarget demoFetch demoChunk) =
      demoChunk.countP
        (fun th => (scrapeThreadIfRelevant th demoTarget (demoFetch th)).1.isRelevant) ∧
    countRelevant (processChunk demoTarget demoFetch demoChunk) = 2 := by
  have h := scrape_failure_isolated demoTarget demoFetch demoChunk
    { title := "boom", url := "bad" } "net::ERR_TIMED_OUT"
  exact ⟨h.1, h.2.1, h.2.2.1 1 { title := "boom", url := "bad" } (by decide),
    h.2.2.2, by decide⟩

/-- Fuel adequacy of the chunk slicer: any two sufficient fuels compute the
same chunks, for a positive cap. -/
theorem chunksOfAux_congr (c : Nat) (hc : c ≠ 0) :
    ∀ (f1 f2 : Nat) (l : List α), l.length ≤ f1 → l.length ≤ f2 →
      chunksOfAux c f1 l = chunksOfAux c f2 l := by
  intro f1
  induction f1 with
  | zero =>
    intro f2 l h1 h2
    cases l with
    | nil => cases f2 <;> rfl
    | cons x xs => simp at h1
  | succ f1 ih =>
    intro f2 l h1 h2
    cases l with
    | nil => cases f2 <;> rfl
    | cons x xs =>
      cases f2 with
      | zero => simp at h2
      | succ f2 =>
        simp only [chunksOfAux]
        rw [ih f2 ((x :: xs).drop c) (by simp at h1 ⊢; omega) (by simp at h2 ⊢; omega)]

/-- Unfolding of the chunk slicer on a non-empty list under a non-zero cap. -/
theorem chunksOf_cons_eq (c : Nat) (hc : c ≠ 0) (x : α) (xs : List α) :
    chunksOf c (x :: xs) = ((x :: xs).take c) :: chunksOf c ((x :: xs).drop c) := by
  show chunksOfAux c (xs.length + 1) (x :: xs) = _
  simp only [chunksOfAux]
  rw [chunksOfAux_congr c hc xs.length ((x :: xs).drop c).length ((x :: xs).drop c)
    (by simp; omega) le_rfl]
  rfl

/-- The chunks concatenate back to the original list: nothing is lost,
duplicated or reordered by the slicing loop. -/
theorem chunksOf_flatten (c : Nat) (hc : c ≠ 0) (l : List α) :
    (chunksOf c l).flatten = l := by
  have key : ∀ (n : Nat) (l : List α), l.length ≤ n → (chunksOf c l).flatten = l := by
    intro n
    induction n with
    | zero =>
      intro l hl
      cases l with
      | nil => simp [chunksOf, chunksOfAux]
      | cons x xs => simp at hl
    | succ n ih =>
      intro l hl
      cases l with
      | nil => simp [chunksOf, chunksOfAux]
      | cons x xs =>
        rw [chunksOf_cons_eq c hc, List.flatten_cons,
          ih ((x :: xs).drop c) (by simp at hl ⊢; omega)]
        exact List.take_append_drop c (x :: xs)
  exact key l.length l le_rfl

/-- Every chunk the slicer produces holds at most c links. -/
theorem chunksOf_length_le (c : Nat) (hc : c ≠ 0) (l : List α) :
    ∀ ch ∈ chunksOf c l, ch.length ≤ c := by
  have key : ∀ (n : Nat) (l : List α), l.length ≤ n →
      ∀ ch ∈ chunksOf c l, ch.length ≤ c := by
    intro n
    induction n with
    | zero =>
      intro l hl ch hch
      cases l with
      | nil => simp [chunksOf, chunksOfAux] at hch
      | cons x xs => simp at hl
    | succ n ih =>
      intro l hl ch hch
      cases l with
      | nil => simp [chunksOf, chunksOfAux] at hch
      | cons x xs =>
        rw [chunksOf_cons_eq c hc] at hch
        rcases List.mem_cons.mp hch with h | h
        · subst h
          simp [List.length_take]
        · exact ih ((x :: xs).drop c) (by simp at hl ⊢; omega) ch h
  exact key l.length l le_rfl

/-- Chunk number k is exactly the slice `links.slice(c*k, c*k + c)`:
the chunks are consecutive and in order. -/
theorem chunksOf_getElem? (c : Nat) (hc : c ≠ 0) (l : List α) (k : Nat) :
    (chunksOf c l)[k]? =
      if (l.drop (c * k)).isEmpty then none
      else some ((l.drop (c * k)).take c) := by
  induction k generalizing l with
  | zero =>
    cases l with
    | nil => simp [chunksOf, chunksOfAux]
    | cons x xs => rw [chunksOf_cons_eq c hc]; simp
  | succ k ih =>
    cases l with
    | nil => simp [chunksOf, chunksOfAux]
    | cons x xs =>
      rw [chunksOf_cons_eq c hc]
      simp only [List.getElem?_cons_succ]
      rw [ih ((x :: xs).drop c), List.drop_drop]
      have harith : c + c * k = c * (k + 1) := by ring
      rw [harith]

/-- C7: under the cap of 3, the fan-out loop slices the page's links into
consecutive chunks of at most 3 — chunk k is exactly links `3k..3k+2` and
the chunks concatenate back to the whole link list — and, since the loop
body awaits the settlement of each chunk before the next iteration (it is
one sequential loop), at most one chunk of at most 3 scrapes is dispatched
at any time. -/
theorem fanout_chunk_structure (links : List ThreadLink) :
    (chunksOf CONCURRENCY_LIMIT links).flatten = links ∧
    (∀ ch ∈ chunksOf CONCURRENCY_LIMIT links, ch.length ≤ CONCURRENCY_LIMIT) ∧
    (∀ k : Nat, (chunksOf CONCURRENCY_LIMIT links)[k]? =
      if (links.drop (CONCURRENCY_LIMIT * k)).isEmpty then none
      else some ((links.drop (CONCURRENCY_LIMIT * k)).take CONCURRENCY_LIMIT)) :=
  ⟨chunksOf_flatten CONCURRENCY_LIMIT (by decide) links,
   chunksOf_length_le CONCURRENCY_LIMIT (by decide) links,
   fun k => chunksOf_getElem? CONCURRENCY_LIMIT (by decide) links k⟩

/-- Witness for the chunk structure on 7 links: the slices are 3, 3 and 1
links long, they flatten back to the original list, the first chunk is
within the cap, and chunk 2 is the final single-link slice. -/
theorem fanout_chunk_structure_witness :
    (chunksOf CONCURRENCY_LIMIT demoLinks).flatten = demoLinks ∧
    (demoLinks.take 3).length ≤ CONCURRENCY_LIMIT ∧
    (chunksOf CONCURRENCY_LIMIT demoLinks)[2]? =
      (if (demoLinks.drop (CONCURRENCY_LIMIT * 2)).isEmpty then none
       else some ((demoLinks.drop (CONCURRENCY_LIMIT * 2)).take CONCURRENCY_LIMIT)) :=
  ⟨(fanout_chunk_structure demoLinks).1,
   (fanout_chunk_structure demoLinks).2.1 (demoLinks.take 3) (by decide),
   (fanout_chunk_structure demoLinks).2.2 2⟩

/-- Every new-work event of a chunk loop is emitted at a clock value where
the shutdown flag read false: the loop head re-checks the flag before each
dispatch. -/
theorem chunkLoop_newWork (flag : Nat → Bool) :
    ∀ (chunks : List (List ThreadLink)) (t : Nat),
      ∀ ev ∈ (chunkLoop flag chunks t).1, isNewWork ev = true →
        flag (evTime ev) = false := by
  intro chunks
  induction chunks with
  | nil => intro t ev hev; simp [chunkLoop] at hev
  | cons c rest ih =>
    intro t ev hev hnew
    simp only [chunkLoop] at hev
    by_cases hf : flag t
    · simp [hf] at hev
    · simp only [hf, Bool.false_eq_true, if_false, List.mem_cons] at hev
      rcases hev with rfl | rfl | h
      · simpa [evTime] using Bool.of_not_eq_true hf
      · simp [isNewWork] at hnew
      · exact ih (t + 1) ev h hnew

/-- A chunk loop's trace pairs every chunk start immediately with its
settlement: an in-flight chunk always runs to completion. -/
theorem chunkLoop_paired (flag : Nat → Bool) :
    ∀ (chunks : List (List ThreadLink)) (t : Nat),
      chunkPaired (chunkLoop flag chunks t).1 = true := by
  intro chunks
  induction chunks with
  | nil => intro t; simp [chunkLoop, chunkPaired]
  | cons c rest ih =>
    intro t
    simp only [chunkLoop]
    by_cases hf : flag t
    · simp [hf, chunkPaired]
    · simp [hf, chunkPaired, ih (t + 1)]

/-- Concatenating two well-paired traces yields a well-paired trace. -/
theorem chunkPaired_append (ys : List Ev) :
    ∀ (xs : List Ev), chunkPaired xs = true → chunkPaired ys = true →
      chunkPaired (xs ++ ys) = true := by
  have key : ∀ (n : Nat) (xs : List Ev), xs.length ≤ n → chunkPaired xs = true →
      chunkPaired ys = true → chunkPaired (xs ++ ys) = true := by
    intro n
    induction n with
    | zero =>
      intro xs hl h1 h2
      cases xs with
      | nil => simpa using h2
      | cons e rest => simp at hl
    | succ n ih =>
      intro xs hl h1 h2
      cases xs with
      | nil => simpa using h2
      | cons e rest0 =>
        cases e with
        | fetchPage t =>
          simp only [chunkPaired] at h1
          simp only [List.cons_append, chunkPaired]
          exact ih rest0 (by simp at hl; omega) h1 h2
        | chunkSettle t c => simp [chunkPaired] at h1
        | chunkStart t c =>
          cases rest0 with
          | nil => simp [chunkPaired] at h1
          | cons e2 rest =>
            cases e2 with
            | fetchPage t2 => simp [chunkPaired] at h1
            | chunkStart t2 c2 => simp [chunkPaired] at h1
            | chunkSettle t2 c2 =>
              simp only [chunkPaired, Bool.and_eq_true] at h1
              simp only [List.cons_append, chunkPaired, Bool.and_eq_true]
              exact ⟨h1.1, ih rest (by simp at hl; omega) h1.2 h2⟩
  intro xs
  exact key xs.length xs le_rfl

/-- Every new-work event of a pagination trace is emitted at a clock value
where the shutdown flag read false. -/
theorem pageLoop_newWork (flag : Nat → Bool) :
    ∀ (pages : List ListingPage) (t : Nat),
      ∀ ev ∈ (pageLoop flag pages t).1, isNewWork ev = true →
        flag (evTime ev) = false := by
  intro pages
  induction pages with
  | nil => intro t ev hev; simp [pageLoop] at hev
  | cons p rest ih =>
    intro t ev hev hnew
    simp only [pageLoop] at hev
    by_cases hf : flag t
    · rw [if_pos hf] at hev
      simp at hev
    · rw [if_neg hf] at hev
      by_cases hn : p.nextHref ≠ none ∧
          ¬flag (chunkLoop flag (chunksOf CONCURRENCY_LIMIT p.links) (t + 1)).2
      · rw [if_pos hn] at hev
        simp only [List.mem_cons, List.mem_append] at hev
        rcases hev with rfl | h | h
        · simpa [evTime] using Bool.of_not_eq_true hf
        · exact chunkLoop_newWork flag (chunksOf CONCURRENCY_LIMIT p.links) (t + 1) ev h hnew
        · exact ih _ ev h hnew
      · rw [if_neg hn] at hev
        simp only [List.mem_cons] at hev
        rcases hev with rfl | h
        · simpa [evTime] using Bool.of_not_eq_true hf
        · exact chunkLoop_newWork flag (chunksOf CONCURRENCY_LIMIT p.links) (t + 1) ev h hnew

/-- A pagination trace pairs every chunk start immediately with its
settlement. -/
theorem pageLoop_paired (flag : Nat → Bool) :
    ∀ (pages : List ListingPage) (t : Nat),
      chunkPaired (pageLoop flag pages t).1 = true := by
  intro pages
  induction pages with
  | nil => intro t; simp [pageLoop, chunkPaired]
  | cons p rest ih =>
    intro t
    simp only [pageLoop]
    by_cases hf : flag t
    · rw [if_pos hf]
      simp [chunkPaired]
    · rw [if_neg hf]
      by_cases hn : p.nextHref ≠ none ∧
          ¬flag (chunkLoop flag (chunksOf CONCURRENCY_LIMIT p.links) (t + 1)).2
      · rw [if_pos hn]
        simp only [chunkPaired]
        exact chunkPaired_append _ _ (chunkLoop_paired flag _ (t + 1)) (ih _)
      · rw [if_neg hn]
        simp only [chunkPaired]
        exact chunkLoop_paired flag _ (t + 1)

/-- C8: once the shutdown flag is set (it is monotone: SIGINT only ever sets
it), no page fetch and no chunk start of the run carries a check time at or
after the moment the flag became true — the loop heads observe the flag and
dispatch nothing new — while the trace still pairs every dispatched chunk
with its settlement, so the in-flight chunk finishes and no task is
abandoned; the trace functions are total, so no error escapes. -/
theorem shutdown_graceful (flag : Nat → Bool)
    (hmono : ∀ t u : Nat, t ≤ u → flag t = true → flag u = true)
    (T : Nat) (hT : flag T = true) (pages : List ListingPage) (t0 : Nat) :
    (∀ ev ∈ (pageLoop flag pages t0).1, isNewWork ev = true → evTime ev < T) ∧
    chunkPaired (pageLoop flag pages t0).1 = true := by
  refine ⟨?_, pageLoop_paired flag pages t0⟩
  intro ev hev hnew
  have hfalse := pageLoop_newWork flag pages t0 ev hev hnew
  by_contra hge
  push_neg at hge
  have htrue := hmono T (evTime ev) hge hT
  rw [hfalse] at htrue
  exact Bool.false_ne_true htrue

/-- Witness for graceful shutdown: with SIGINT landing at clock 2 during the
first page's fan-out, the run fetches page 1 at clock 0 (before the cut-off)
and its trace is still fully chunk-paired. -/
theorem shutdown_graceful_witness :
    demoFlag 2 = true ∧
    Ev.fetchPage 0 ∈ (pageLoop demoFlag demoPages 0).1 ∧
    evTime (Ev.fetchPage 0) < 2 ∧
    chunkPaired (pageLoop demoFlag demoPages 0).1 = true := by
  have h := shutdown_graceful demoFlag
    (fun t u hle ht => by simp only [demoFlag, decide_eq_true_eq] at ht ⊢; omega)
    2 (by decide) demoPages 0
  exact ⟨by decide, by decide, h.1 (Ev.fetchPage 0) (by decide) (by decide), h.2⟩

/-- Launching never touches the exit counters. -/
theorem launch_counters {n : Nat} (s : DispatchState n) (w : Fin n) :
    (launchWorkerIfNeeded s w).completedTargets = s.completedTargets ∧
    (launchWorkerIfNeeded s w).exitedOk = s.exitedOk ∧
    (launchWorkerIfNeeded s w).exitedErr = s.exitedErr ∧
    (launchWorkerIfNeeded s w).queue ≤ s.queue := by
  unfold launchWorkerIfNeeded
  split
  · exact ⟨rfl, rfl, rfl, le_rfl⟩
  · exact ⟨rfl, rfl, rfl, Nat.sub_le _ _⟩

/-- An exit event bumps `completedTargets` by one and exactly one of the two
exit counters by one. -/
theorem workerExit_counters {n : Nat} (s : DispatchState n) (w : Fin n) (ok : Bool) :
    (workerExit s w ok).completedTargets = s.completedTargets + 1 ∧
    (workerExit s w ok).exitedOk = s.exitedOk + (if ok then 1 else 0) ∧
    (workerExit s w ok).exitedErr = s.exitedErr + (if ok then 0 else 1) := by
  unfold workerExit
  cases ok with
  | true =>
    simp only [if_true, ite_true]
    exact ⟨(launch_counters _ w).1, (launch_counters _ w).2.1, (launch_counters _ w).2.2.1⟩
  | false => exact ⟨rfl, rfl, rfl⟩

/-- Evaluation of `launchWorkerIfNeeded` on an empty queue. -/
theorem launch_eval_empty {n : Nat} (s : DispatchState n) (w : Fin n)
    (hq : s.queue = 0) :
    launchWorkerIfNeeded s w =
      { queue := s.queue, slots := Function.update s.slots w WStatus.finished,
        completedTargets := s.completedTargets, exitedOk := s.exitedOk,
        exitedErr := s.exitedErr,
        resolveCount :=
          if ∀ i, Function.update s.slots w WStatus.finished i = WStatus.finished
          then s.resolveCount + 1 else s.resolveCount } := by
  unfold launchWorkerIfNeeded
  rw [if_pos hq]

/-- Evaluation of `launchWorkerIfNeeded` on a non-empty queue. -/
theorem launch_eval_pop {n : Nat} (s : DispatchState n) (w : Fin n)
    (hq : ¬s.queue = 0) :
    launchWorkerIfNeeded s w =
      { s with queue := s.queue - 1,
               slots := Function.update s.slots w WStatus.busy } := by
  unfold launchWorkerIfNeeded
  rw [if_neg hq]

/-- Launching from a state where `resolve()` has not fired keeps the
invariant: the counters are untouched and `resolve()` fires (once) only with
a drained queue and all slots `finished`. -/
theorem launch_DInv {n : Nat} (s : DispatchState n) (w : Fin n)
    (hc : s.completedTargets = s.exitedOk + s.exitedErr)
    (hr : s.resolveCount = 0) :
    DInv (launchWorkerIfNeeded s w) := by
  unfold DInv
  by_cases hq : s.queue = 0
  · rw [launch_eval_empty s w hq]
    by_cases hall : ∀ i, Function.update s.slots w WStatus.finished i = WStatus.finished
    · rw [if_pos hall]
      exact ⟨hc, by rw [hr], fun _ => ⟨hq, hall⟩⟩
    · rw [if_neg hall]
      exact ⟨hc, by rw [hr]; exact Nat.zero_le 1, fun h1 => absurd h1 (by rw [hr]; omega)⟩
  · rw [launch_eval_pop s w hq]
    exact ⟨hc, by rw [hr]; exact Nat.zero_le 1, fun h1 => absurd h1 (by rw [hr]; omega)⟩

/-- An exit event of a busy slot preserves the run invariant. -/
theorem workerExit_DInv {n : Nat} (s : DispatchState n) (w : Fin n) (ok : Bool)
    (hInv : DInv s) (hw : s.slots w = WStatus.busy) :
    DInv (workerExit s w ok) := by
  obtain ⟨hc, hle, himp⟩ := hInv
  have hr : s.resolveCount = 0 := by
    by_cases h1 : s.resolveCount = 1
    · have := (himp h1).2 w
      rw [hw] at this
      cases this
    · omega
  unfold workerExit
  cases ok with
  | true =>
    simp only [if_true, ite_true]
    exact launch_DInv _ w (by simp; omega) hr
  | false =>
    refine ⟨?_, ?_, ?_⟩
    · show s.completedTargets + 1 = (s.exitedOk + 0) + (s.exitedErr + 1)
      omega
    · show s.resolveCount ≤ 1
      omega
    · intro h1
      have h2 : s.resolveCount = 1 := h1
      omega

/-- Invariant through the synchronous kick-off loop: while slots not yet
visited by the loop are still idle, each launch keeps the counters at zero,
fires `resolve()` at most once, and fires it only with a drained queue and
all slots `finished`. -/
theorem foldl_launch_inv {n : Nat} :
    ∀ (ws : List (Fin n)) (s : DispatchState n), ws.Nodup →
      s.completedTargets = s.exitedOk + s.exitedErr →
      (∀ w ∈ ws, s.slots w = WStatus.idle) →
      s.resolveCount ≤ 1 →
      (s.resolveCount = 1 → s.queue = 0 ∧ ∀ i, s.slots i = WStatus.finished) →
      DInv (ws.foldl launchWorkerIfNeeded s) := by
  intro ws
  induction ws with
  | nil =>
    intro s _ hc _ hle himp
    exact ⟨hc, hle, himp⟩
  | cons w ws ih =>
    intro s hnd hc hidle hle himp
    have hw : s.slots w = WStatus.idle := hidle w (List.mem_cons_self w ws)
    have hr0 : s.resolveCount = 0 := by
      by_cases h1 : s.resolveCount = 1
      · have := (himp h1).2 w
        rw [hw] at this
        cases this
      · omega
    simp only [List.foldl_cons]
    by_cases hq : s.queue = 0
    · rw [launch_eval_empty s w hq]
      by_cases hall : ∀ i, Function.update s.slots w WStatus.finished i = WStatus.finished
      · rw [if_pos hall]
        refine ih _ (List.nodup_cons.mp hnd).2 hc ?_ ?_ ?_
        · intro w2 hw2
          have hne : w2 ≠ w := by
            intro h
            exact (List.nodup_cons.mp hnd).1 (h ▸ hw2)
          show Function.update s.slots w WStatus.finished w2 = WStatus.idle
          rw [Function.update_noteq hne]
          exact hidle w2 (List.mem_cons_of_mem w hw2)
        · show s.resolveCount + 1 ≤ 1
          omega
        · intro _
          exact ⟨hq, hall⟩
      · rw [if_neg hall]
        refine ih _ (List.nodup_cons.mp hnd).2 hc ?_ ?_ ?_
        · intro w2 hw2
          have hne : w2 ≠ w := by
            intro h
            exact (List.nodup_cons.mp hnd).1 (h ▸ hw2)
          show Function.update s.slots w WStatus.finished w2 = WStatus.idle
          rw [Function.update_noteq hne]
          exact hidle w2 (List.mem_cons_of_mem w hw2)
        · show s.resolveCount ≤ 1
          omega
        · intro h1
          have h2 : s.resolveCount = 1 := h1
          omega
    · rw [launch_eval_pop s w hq]
      refine ih _ (List.nodup_cons.mp hnd).2 hc ?_ ?_ ?_
      · intro w2 hw2
        have hne : w2 ≠ w := by
          intro h
          exact (List.nodup_cons.mp hnd).1 (h ▸ hw2)
        show Function.update s.slots w WStatus.busy w2 = WStatus.idle
        rw [Function.update_noteq hne]
        exact hidle w2 (List.mem_cons_of_mem w hw2)
      · show s.resolveCount ≤ 1
        omega
      · intro h1
        have h2 : s.resolveCount = 1 := h1
        omega

/-- The kicked-off state satisfies the run invariant. -/
theorem kickoff_DInv (n T : Nat) : DInv (kickoff n T) := by
  apply foldl_launch_inv (List.finRange n) (initState n T) (List.nodup_finRange n) rfl
    (fun _ _ => rfl) (Nat.zero_le 1)
  intro h1
  cases h1

/-- Every state the manager can reach during a run satisfies the run
invariant. -/
theorem reachable_DInv {n T : Nat} (s : DispatchState n)
    (h : Reachable n T s) : DInv s := by
  induction h with
  | start => exact kickoff_DInv n T
  | step s w ok hr hw ih => exact workerExit_DInv s w ok ih hw

/-- C2: at every reachable state of a run, `completedTargets` equals the
number of worker processes that have exited — each having either finished
its target, re-entered the dispatcher to find the queue state, or errored —
and the counter never decreases: the only event that touches it is a worker
exit, which increments it by one, while `launchWorkerIfNeeded` leaves it
unchanged. -/
theorem completedTargets_counts {n T : Nat} (s : DispatchState n)
    (hr : Reachable n T s) (w : Fin n) (ok : Bool) :
    s.completedTargets = s.exitedOk + s.exitedErr ∧
    (workerExit s w ok).completedTargets =
      (workerExit s w ok).exitedOk + (workerExit s w ok).exitedErr ∧
    s.completedTargets ≤ (workerExit s w ok).completedTargets ∧
    (launchWorkerIfNeeded s w).completedTargets = s.completedTargets := by
  have hc := (reachable_DInv s hr).1
  have he := workerExit_counters s w ok
  refine ⟨hc, ?_, by omega, (launch_counters s w).1⟩
  rcases he with ⟨h1, h2, h3⟩
  cases ok <;> simp at h2 h3 <;> omega

/-- Witness for the completion accounting at the spec's scenario of 6
targets and a pool of 4: at the kicked-off state, and after a first clean
worker exit, the counter equals the number of exited workers and has not
decreased, and a launch leaves it unchanged. -/
theorem completedTargets_counts_witness :
    (kickoff NUM_WORKERS 6).completedTargets =
      (kickoff NUM_WORKERS 6).exitedOk + (kickoff NUM_WORKERS 6).exitedErr ∧
    (workerExit (kickoff NUM_WORKERS 6) ⟨0, by decide⟩ true).completedTargets =
      (workerExit (kickoff NUM_WORKERS 6) ⟨0, by decide⟩ true).exitedOk +
        (workerExit (kickoff NUM_WORKERS 6) ⟨0, by decide⟩ true).exitedErr ∧
    (kickoff NUM_WORKERS 6).completedTargets ≤
      (workerExit (kickoff NUM_WORKERS 6) ⟨0, by decide⟩ true).completedTargets ∧
    (launchWorkerIfNeeded (kickoff NUM_WORKERS 6) ⟨0, by decide⟩).completedTargets =
      (kickoff NUM_WORKERS 6).completedTargets :=
  completedTargets_counts (kickoff NUM_WORKERS 6) Reachable.start ⟨0, by decide⟩ true

/-- C1: evaluation of the manager at the claim's failure scenario (a pool of
2 slots, 1 target, whose worker exits with a non-zero code). The resulting
state is reachable; the queue is drained and `completedTargets` equals the
target count, yet the failed slot is stuck in `error`, no slot is busy (so
no further exit event can ever fire), and `resolve()` has not been invoked:
the completion promise never settles, contradicting completion on partial
failure. -/
theorem partial_failure_never_resolves :
    Reachable 2 1 (workerExit (kickoff 2 1) 0 false) ∧
    (workerExit (kickoff 2 1) 0 false).resolveCount = 0 ∧
    (workerExit (kickoff 2 1) 0 false).queue = 0 ∧
    (workerExit (kickoff 2 1) 0 false).completedTargets = 1 ∧
    (workerExit (kickoff 2 1) 0 false).slots 0 = WStatus.error ∧
    (workerExit (kickoff 2 1) 0 false).slots 1 = WStatus.finished ∧
    (∀ i, (workerExit (kickoff 2 1) 0 false).slots i ≠ WStatus.busy) :=
  ⟨Reachable.step (kickoff 2 1) 0 false Reachable.start (by decide),
   by decide, by decide, by decide, by decide, by decide, by decide⟩

/-- C3: evaluation of the worker's exit paths. On the normal path the
finally block runs: the browser is closed and the pool ended before the
process exits with code 0. On the error path the catch block's
`process.exit(1)` terminates the process before the finally block can run:
the worker exits with code 1 with the browser never closed, so the claimed
release-on-every-exit-path does not hold of the code. -/
theorem error_path_skips_browser_close :
    runWorkerProcess true =
      { exitCode := 1, browserClosed := false, poolEnded := false } ∧
    runWorkerProcess false =
      { exitCode := 0, browserClosed := true, poolEnded := true } :=
  ⟨rfl, rfl⟩

/-- A duplicate insert (same `thread_url` already stored) is a no-op. -/
theorem insertIgnoreDuplicate_mem (table : List Row) (r : Row)
    (hmem : ∃ q ∈ table, q.thread_url = r.thread_url) :
    insertIgnoreDuplicate table r = table := by
  unfold insertIgnoreDuplicate
  rw [if_pos]
  rw [List.any_eq_true]
  obtain ⟨q, hq, he⟩ := hmem
  exact ⟨q, hq, by simp [he]⟩

/-- One insert preserves the at-most-one-row-per-url property. -/
theorem insertIgnoreDuplicate_count (table : List Row) (r : Row) (u : String)
    (h : urlCount table u ≤ 1) :
    urlCount (insertIgnoreDuplicate table r) u ≤ 1 := by
  unfold insertIgnoreDuplicate
  by_cases hany : (table.any fun q => q.thread_url == r.thread_url) = true
  · rw [if_pos hany]
    exact h
  · rw [if_neg hany]
    unfold urlCount at h ⊢
    rw [List.countP_append]
    rw [List.any_eq_true] at hany
    push_neg at hany
    by_cases hru : r.thread_url = u
    · have h0 : (table.countP fun q => q.thread_url == u) = 0 := by
        rw [List.countP_eq_zero]
        intro q hq hqq
        apply hany q hq
        simp only [beq_iff_eq] at hqq ⊢
        rw [hqq, hru]
      rw [h0]
      simp [List.countP_cons, hru]
    · have h1 : ([r].countP fun q => q.thread_url == u) = 0 := by
        simp [List.countP_cons, hru]
      rw [h1]
      simpa using h

/-- Any sequence of inserts starting from a deduplicated table keeps it
deduplicated. -/
theorem foldl_insert_inv (writes : List Row) :
    ∀ (table : List Row), (∀ u, urlCount table u ≤ 1) →
      ∀ u, urlCount (writes.foldl insertIgnoreDuplicate table) u ≤ 1 := by
  induction writes with
  | nil => intro table h; exact h
  | cons r rest ih =>
    intro table h
    simp only [List.foldl_cons]
    exact ih (insertIgnoreDuplicate table r)
      (fun u => insertIgnoreDuplicate_count table r u (h u))

/-- C4: under the `UNIQUE (thread_url)` constraint with
`ON CONFLICT DO NOTHING`, any sequence of store writes (any serialisation of
sequential or concurrent inserts) keeps at most one row per `thread_url`,
and a write whose `thread_url` is already stored leaves the table unchanged
while still succeeding (the insert function is total: no error reaches the
caller). -/
theorem store_dedup (writes : List Row) (table : List Row)
    (hinv : ∀ u, urlCount table u ≤ 1) :
    (∀ u, urlCount (writes.foldl insertIgnoreDuplicate table) u ≤ 1) ∧
    (∀ (t : List Row) (r : Row), (∃ q ∈ t, q.thread_url = r.thread_url) →
      insertIgnoreDuplicate t r = t) :=
  ⟨foldl_insert_inv writes table hinv,
   fun t r h => insertIgnoreDuplicate_mem t r h⟩

/-- Witness for the idempotent store: writing the same row twice into an
empty table stores exactly one row, and the duplicate insert is a no-op. -/
theorem store_dedup_witness :
    urlCount ([demoRow, demoRow].foldl insertIgnoreDuplicate []) demoRow.thread_url ≤ 1 ∧
    insertIgnoreDuplicate [demoRow] demoRow = [demoRow] ∧
    [demoRow, demoRow].foldl insertIgnoreDuplicate [] = [demoRow] :=
  ⟨(store_dedup [demoRow, demoRow] [] (fun u => by simp [urlCount])).1 demoRow.thread_url,
   (store_dedup [demoRow, demoRow] [] (fun u => by simp [urlCount])).2 [demoRow] demoRow
     ⟨demoRow, by simp, rfl⟩,
   by decide⟩

/-- C9: the selector fallback loop returns the first selector's text as soon
as it is non-empty — the remaining selectors, whatever they are, are never
consulted — skips a selector exactly when its text is empty, and when every
selector misses the scraper dumps the diagnostic artifacts (raw markup and
screenshot) and returns an irrelevant result carrying the plain thread title
with no error prefix and no store write. -/
theorem selector_fallback (sel : String) (rest : List String) (page : Page)
    (thread : ThreadLink) (target : Target) :
    (page.textOf sel ≠ "" → extractPostText (sel :: rest) page = page.textOf sel) ∧
    (page.textOf sel = "" → extractPostText (sel :: rest) page = extractPostText rest page) ∧
    (extractPostText target.postContentSelectors page = "" →
      scrapeThreadIfRelevant thread target (.ok page) =
        ({ isRelevant := false, title := thread.title },
         { debugDumped := true, insert := none })) := by
  refine ⟨fun h => ?_, fun h => ?_, fun h => ?_⟩
  · simp [extractPostText, h]
  · simp [extractPostText, h]
  · simp [scrapeThreadIfRelevant, h]

/-- Witness for the selector fallback: on a page where only selector a
yields text, the loop returns selector a's text and ignores what follows,
a missing selector is skipped, and a target whose only selector misses
produces the debug-dumping irrelevant result with the plain title. -/
theorem selector_fallback_witness :
    extractPostText ["a", "b"] selPage = selPage.textOf "a" ∧
    extractPostText ["z", "a"] selPage = extractPostText ["a"] selPage ∧
    scrapeThreadIfRelevant demoThread missTarget (.ok selPage) =
      ({ isRelevant := false, title := demoThread.title },
       { debugDumped := true, insert := none }) :=
  ⟨(selector_fallback "a" ["b"] selPage demoThread missTarget).1 (by decide),
   (selector_fallback "z" ["a"] selPage demoThread missTarget).2.1 (by decide),
   (selector_fallback "a" [] selPage demoThread missTarget).2.2 (by decide)⟩

/-- An anchor with a non-empty title and a present, non-empty href whose URL
resolution throws makes the whole link extraction of the page throw. -/
theorem collectThreadLinks_error (resolveUrl : String → Except String String) :
    ∀ (anchors : List Anchor),
      (∃ a ∈ anchors, jsTrim a.text ≠ "" ∧ ∃ u, a.href = some u ∧ u ≠ "" ∧
        ∃ e, resolveUrl u = .error e) →
      ∃ e, collectThreadLinks resolveUrl anchors = .error e := by
  intro anchors
  induction anchors with
  | nil =>
    rintro ⟨a, ha, _⟩
    simp at ha
  | cons b rest ih =>
    rintro ⟨a, ha, htitle, u, hhref, hu, e, herr⟩
    rcases List.mem_cons.mp ha with rfl | hmem
    · simp only [collectThreadLinks, hhref]
      rw [if_pos ⟨htitle, hu⟩, herr]
      exact ⟨e, rfl⟩
    · obtain ⟨e2, he2⟩ := ih ⟨a, hmem, htitle, u, hhref, hu, e, herr⟩
      simp only [collectThreadLinks]
      cases hb : b.href with
      | none => exact ⟨e2, he2⟩
      | some u2 =>
        dsimp only
        by_cases hcond : jsTrim b.text ≠ "" ∧ u2 ≠ ""
        · rw [if_pos hcond]
          cases hr2 : resolveUrl u2 with
          | error e3 => exact ⟨e3, rfl⟩
          | ok abs =>
            rw [he2]
            exact ⟨e2, rfl⟩
        · rw [if_neg hcond]
          exact ⟨e2, he2⟩

/-- C10: when a listing page holds a thread anchor with a non-empty title
and a present href that cannot be resolved against the target's base URL,
the URL-resolution exception aborts the extraction of the entire page and
lands in the page-level catch: the iteration processes none of the page's
thread links (not even the well-formed ones) and sets `currentPageUrl` to
null, ending the target's pagination — the malformed entry is not merely
dropped. -/
theorem malformed_href_aborts_page (resolveUrl : String → Except String String)
    (anchors : List Anchor) (nextPageHref : Option String) (sd : Bool)
    (hbad : ∃ a ∈ anchors, jsTrim a.text ≠ "" ∧ ∃ u, a.href = some u ∧ u ≠ "" ∧
      ∃ e, resolveUrl u = .error e) :
    (∃ e, collectThreadLinks resolveUrl anchors = .error e) ∧
    processListingPage resolveUrl anchors nextPageHref sd =
      { processedLinks := [], nextPageUrl := none } := by
  have h := collectThreadLinks_error resolveUrl anchors hbad
  refine ⟨h, ?_⟩
  obtain ⟨e, he⟩ := h
  simp [processListingPage, he]

/-- Witness for the malformed-href behaviour: the page has one good anchor
and one anchor with the unresolvable href `http://`; extraction throws, the
page contributes no links at all, and pagination ends. -/
theorem malformed_href_aborts_page_witness :
    (∃ e, collectThreadLinks demoResolve demoAnchors = .error e) ∧
    processListingPage demoResolve demoAnchors (some "/page-2") false =
      { processedLinks := [], nextPageUrl := none } :=
  malformed_href_aborts_page demoResolve demoAnchors (some "/page-2") false
    ⟨{ text := "broken thread", href := some "http://" }, by decide, by decide,
     "http://", rfl, by decide, "Invalid URL", rfl⟩

end Scraper
